import Mathlib

/-!
Verification of the galogen registry resolution engine.

A shallow embedding of the resolution engine of `galogen.cpp` (the tool that
turns the OpenGL XML registry into loader code), together with proofs about
its version resolution, extension resolution, operation application, type
dependency closure and emission pipeline.

Conventions of the embedding:
* C++ `std::string` becomes `String`; a missing-or-empty attribute is the
  empty string (the C++ code itself uses `.empty()` checks throughout).
* `std::unordered_map<std::string, T>` becomes an association list
  `List (String × T)`; `std::unordered_set<std::string>` becomes a
  duplicate-free `List String` (insertion appends, erasure filters).
* Fallible C++ control flow becomes `Except GalError`.  The `FAIL`/`FAIL_IF`
  macros (print "FATAL ERROR" and `exit(1)`) become `GalError.fatal msg`.
  `unordered_map::at` on a missing key (which throws `std::out_of_range`,
  terminating through `std::terminate`, not through `FAIL`) becomes
  `GalError.outOfRange`, and a dereference of a null pointer (undefined
  behavior) becomes `GalError.nullDeref`.  Unbounded recursion (a stack
  overflow on a cyclic requires-graph) is modelled with fuel and becomes
  `GalError.fuelOut`.
-/

namespace Galogen

/-- Failure modes of the generator.  `fatal` is the documented `FAIL` path
(message to stderr, `exit(1)`); the other constructors model the ways the
C++ program can die that are *not* the documented fatal-error path. -/
inductive GalError where
  /-- The `FAIL`/`FAIL_IF` macro: "FATAL ERROR: ..." then `exit(1)`. -/
  | fatal (msg : String)
  /-- The `std::unordered_map::at` on an absent key throws `std::out_of_range`. -/
  | outOfRange
  /-- Dereference of a null pointer (undefined behavior). -/
  | nullDeref
  /-- Unbounded recursion (stack overflow), modelled by exhausted fuel. -/
  | fuelOut
deriving DecidableEq

/-- Whether an error is the documented fatal-error termination. -/
def GalError.isFatal : GalError → Bool
  | .fatal _ => true
  | _ => false

instance {ε α : Type} [DecidableEq ε] [DecidableEq α] : DecidableEq (Except ε α) :=
  fun x y =>
    match x, y with
    | .error a, .error b =>
      if h : a = b then .isTrue (by rw [h]) else .isFalse (by intro hh; cases hh; exact h rfl)
    | .ok a, .ok b =>
      if h : a = b then .isTrue (by rw [h]) else .isFalse (by intro hh; cases hh; exact h rfl)
    | .error _, .ok _ => .isFalse (by intro hh; cases hh)
    | .ok _, .error _ => .isFalse (by intro hh; cases hh)

/-- The `TypeInfo` from galogen.cpp: information about an API type. -/
structure TypeInfo where
  name : String
  type_cdecl : String
  requires : String
  api : String
deriving DecidableEq

/-- The `EnumerantInfo` from galogen.cpp: information about an enumerant. -/
structure EnumerantInfo where
  name : String
  «alias» : String
  value : String
  suffix : String
  api : String
deriving DecidableEq

/-- The `GroupInfo` from galogen.cpp: a named collection of enumerants.  The C++
stores pointers to the resolved `EnumerantInfo`; we store the values. -/
structure GroupInfo where
  name : String
  enums : List EnumerantInfo
  api : String
deriving DecidableEq

/-- The `CommandInfo::ParamInfo` from galogen.cpp. -/
structure ParamInfo where
  name : String
  ctype : String
  referenced_api_type : String
  group : String
  len : String
deriving DecidableEq

/-- The `CommandInfo` from galogen.cpp. -/
structure CommandInfo where
  name : String
  prototype : String
  return_ctype : String
  referenced_api_type : String
  parameters : List ParamInfo
  «alias» : String
  vecequiv : String
  api : String
deriving DecidableEq

/-- Access to the per-variant `api` tag shared by all four entity kinds. -/
class HasApi (T : Type) where
  api : T → String

instance : HasApi TypeInfo := ⟨TypeInfo.api⟩

instance : HasApi EnumerantInfo := ⟨EnumerantInfo.api⟩

instance : HasApi GroupInfo := ⟨GroupInfo.api⟩

instance : HasApi CommandInfo := ⟨CommandInfo.api⟩

/-- The loop body of `ApiEntity<T>::get` from galogen.cpp: the condition is
`(e.api.empty() && result == nullptr) || (!e.api.empty() && e.api == api)`,
and on a hit `result` becomes `&e`. -/
def getStep {T : Type} [HasApi T] (api_name : String) (result : Option T) (e : T) : Option T :=
  if HasApi.api e = "" then
    match result with
    | none => some e
    | some _ => result
  else if HasApi.api e = api_name then some e
  else result

/-- The `ApiEntity<T>::get` from galogen.cpp, on the entity's list of variant
definitions `set_` (in the order `add` was called).  Walks the variants; a
default-tagged variant (empty `api`) is taken only while no result has been
found yet, while a variant tagged specifically for the requested API always
overwrites the current result. -/
def ApiEntity.get {T : Type} [HasApi T] (set_ : List T) (api_name : String) : Option T :=
  set_.foldl (getStep api_name) none

/-- The `EntityMap<T>` from galogen.cpp: maps names to the variant lists of API
entities (we track the `processed_` flag separately, keyed by name, in the
emission state). -/
abbrev EntityMap (T : Type) : Type := List (String × List T)

/-- First-match association-list lookup (`unordered_map::find`). -/
def mapLookup {T : Type} (m : EntityMap T) (key : String) : Option (List T) :=
  match m with
  | [] => none
  | (k, v) :: rest => if k = key then some v else mapLookup rest key

/-- The `type_map[name]` via `operator[]`: an absent key behaves as a
default-constructed entity with no variants. -/
def getVariants {T : Type} (m : EntityMap T) (key : String) : List T :=
  (mapLookup m key).getD []

/-- The selection state `entity_sets`: a map from an entity category tag
(`"type"`, `"enum"`, `"command"`, `"group"`, ...) to the set of selected
names, modelled as an association list of duplicate-free lists. -/
abbrev EntitySets : Type := List (String × List String)

/-- The name set stored under category `k` (absent key = empty set). -/
def getSet (sets : EntitySets) (k : String) : List String :=
  match sets with
  | [] => []
  | (k', v) :: rest => if k' = k then v else getSet rest k

/-- The `unordered_set::insert`: a no-op when the element is present. -/
def listInsert (l : List String) (x : String) : List String :=
  if x ∈ l then l else l ++ [x]

/-- The `entity_sets[k].insert(x)`: creates the category on first touch. -/
def setsInsert (sets : EntitySets) (k x : String) : EntitySets :=
  match sets with
  | [] => [(k, [x])]
  | (k', v) :: rest =>
    if k' = k then (k', listInsert v x) :: rest
    else (k', v) :: setsInsert rest k x

/-- The `entity_sets[k].erase(x)`: `operator[]` creates the (empty) category,
then the element, if present, is removed. -/
def setsErase (sets : EntitySets) (k x : String) : EntitySets :=
  match sets with
  | [] => [(k, [])]
  | (k', v) :: rest =>
    if k' = k then (k', v.filter (fun y => y ≠ x)) :: rest
    else (k', v) :: setsErase rest k x

/-- The `ApiVersion` from galogen.cpp.  The C++ fields are `int`s filled by
`atoi` on digit strings, hence non-negative; we use `Nat`. -/
structure ApiVersion where
  ver_maj_ : Nat
  ver_min_ : Nat
  valid_ : Bool
deriving DecidableEq

/-- The `atoi` on a string of decimal digits. -/
def digitsToNat (cs : List Char) : Nat :=
  cs.foldl (fun n c => 10 * n + (c.toNat - 48)) 0

/-- The `ApiVersion(const char*)` constructor: match the whole string
against `^([0-9]+)\.([0-9]+)$`; on a match fill major/minor and set
`valid_`; otherwise leave the default state `(0, 0, invalid)`. -/
def ApiVersion.parse (s : String) : ApiVersion :=
  match s.data.takeWhile Char.isDigit, s.data.dropWhile Char.isDigit with
  | [], _ => ⟨0, 0, false⟩
  | a@(_ :: _), '.' :: rest =>
    match rest.takeWhile Char.isDigit, rest.dropWhile Char.isDigit with
    | [], _ => ⟨0, 0, false⟩
    | b@(_ :: _), [] => ⟨digitsToNat a, digitsToNat b, true⟩
    | _ :: _, _ :: _ => ⟨0, 0, false⟩
  | _ :: _, _ => ⟨0, 0, false⟩

/-- The `ApiVersion::operator<=`: lexicographic on (major, minor); the `valid_`
flag is ignored by the comparison. -/
def ApiVersion.le (a b : ApiVersion) : Bool :=
  if a.ver_maj_ < b.ver_maj_ then true
  else if a.ver_maj_ = b.ver_maj_ then decide (a.ver_min_ ≤ b.ver_min_)
  else false

/-- The `ApiVersion::operator>`: negation of `operator<=`. -/
def ApiVersion.gt (a b : ApiVersion) : Bool := ! a.le b

/-- One entity reference inside a `require`/`remove` directive block: the
child element's tag (`"type"`, `"enum"`, `"command"`, ...) and its `name`
attribute (empty string models an empty/missing attribute value). -/
structure EntityRef where
  tag : String
  name : String
deriving DecidableEq

/-- One directive block (`<require>` or `<remove>` element): its tag, its
optional `profile` attribute and its entity references in document order. -/
structure Operation where
  tag : String
  profile : Option String
  refs : List EntityRef
deriving DecidableEq

/-- Whether a directive block applies under the requested profile: skipped
only when a `profile` attribute is present and differs (galogen.cpp,
`processOperations`, the `continue`). -/
def opApplicable (op : Operation) (profile : String) : Prop :=
  match op.profile with
  | none => True
  | some p => p = profile

instance (op : Operation) (profile : String) : Decidable (opApplicable op profile) := by
  unfold opApplicable
  match op.profile with
  | none => exact inferInstanceAs (Decidable True)
  | some p => exact inferInstanceAs (Decidable (p = profile))

/-- The implicit dependency inference for one command parameter: insert the
parameter's referenced API type (when non-empty) into the `"type"` set and
its group (when non-empty) into the `"group"` set. -/
def paramStep (p : ParamInfo) (sets : EntitySets) : EntitySets :=
  let s1 := if p.referenced_api_type ≠ "" then setsInsert sets "type" p.referenced_api_type else sets
  if p.group ≠ "" then setsInsert s1 "group" p.group else s1

/-- The loop over a required command's parameters, in source order. -/
def paramFold (params : List ParamInfo) (sets : EntitySets) : EntitySets :=
  params.foldl (fun s p => paramStep p s) sets

/-- The body of the inner loop of `processOperations` in galogen.cpp, for a
single entity reference.  On `require` the name is inserted into its
category's set; if the reference names a command, the command's signature is
consulted (`command_map.at(...)` -- throwing on an absent key -- then
`.get(api)` -- returning null when no variant matches, which the C++ then
dereferences) and its referenced return type, parameter types and parameter
groups are additionally required.  On `remove` the name is erased from its
category's set and nothing else happens. -/
def applyRef (command_map : EntityMap CommandInfo) (api_name : String)
    (require : Bool) (ref : EntityRef) (sets : EntitySets) : Except GalError EntitySets :=
  if ref.name = "" then .error (.fatal (ref.tag ++ " missing name attribute"))
  else if require then
    let sets1 := setsInsert sets ref.tag ref.name
    if ref.tag = "command" then
      match mapLookup command_map ref.name with
      | none => .error .outOfRange
      | some variants =>
        match ApiEntity.get variants api_name with
        | none => .error .nullDeref
        | some command =>
          let sets2 :=
            if command.referenced_api_type ≠ "" then
              setsInsert sets1 "type" command.referenced_api_type
            else sets1
          .ok (paramFold command.parameters sets2)
    else .ok sets1
  else .ok (setsErase sets ref.tag ref.name)

/-- Apply every entity reference of one directive block in order. -/
def applyRefList (command_map : EntityMap CommandInfo) (api_name : String)
    (require : Bool) : List EntityRef → EntitySets → Except GalError EntitySets
  | [], sets => .ok sets
  | r :: rs, sets =>
    match applyRef command_map api_name require r sets with
    | .error e => .error e
    | .ok sets' => applyRefList command_map api_name require rs sets'

/-- Process one directive block: skip it when its profile attribute is
present and differs from the requested profile; otherwise apply its entity
references, treating the block as `require` exactly when its tag is
`"require"` (anything else erases). -/
def processOperation (command_map : EntityMap CommandInfo) (api_name profile : String)
    (op : Operation) (sets : EntitySets) : Except GalError EntitySets :=
  if opApplicable op profile then
    applyRefList command_map api_name (op.tag = "require") op.refs sets
  else .ok sets

/-- The `processOperations` from galogen.cpp: process the directive blocks of
one `feature`/`extension` element in order. -/
def processOperations (command_map : EntityMap CommandInfo) (api_name profile : String) :
    List Operation → EntitySets → Except GalError EntitySets
  | [], sets => .ok sets
  | op :: ops, sets =>
    match processOperation command_map api_name profile op sets with
    | .error e => .error e
    | .ok sets' => processOperations command_map api_name profile ops sets'

/-- One `<feature>` element: its `api` attribute, its `number` (version
string) attribute and its directive blocks. -/
structure Feature where
  api : String
  number : String
  ops : List Operation
deriving DecidableEq

/-- The ordering by which `generate` sorts the feature elements: the C++
comparator is `ApiVersion::operator<=` on the versions parsed from the
`number` attributes. -/
def featLe (f g : Feature) : Prop :=
  (ApiVersion.parse f.number).le (ApiVersion.parse g.number) = true

instance : DecidableRel featLe := fun _ _ =>
  inferInstanceAs (Decidable (_ = true))

/-- The feature elements whose `api` attribute equals the target API name,
sorted ascending by parsed version (galogen.cpp collects exactly those
elements and `std::sort`s them with the `operator<=` comparator). -/
def sortFeatures (features : List Feature) (api_name : String) : List Feature :=
  List.insertionSort featLe (features.filter (fun f => f.api == api_name))

/-- The version walk of `generate`: process sorted feature elements in
order, breaking at the first one whose version exceeds the target. -/
def featureLoop (command_map : EntityMap CommandInfo) (api_name profile : String)
    (target : ApiVersion) : List Feature → EntitySets → Except GalError EntitySets
  | [], sets => .ok sets
  | f :: fs, sets =>
    if (ApiVersion.parse f.number).gt target then .ok sets
    else
      match processOperations command_map api_name profile f.ops sets with
      | .error e => .error e
      | .ok sets' => featureLoop command_map api_name profile target fs sets'

/-- Version resolution in `generate`: select the feature blocks tagged for
the target API, sort them ascending by version and replay them up to the
target version. -/
def resolveFeatures (command_map : EntityMap CommandInfo) (api_name profile : String)
    (target : ApiVersion) (features : List Feature) (sets : EntitySets) :
    Except GalError EntitySets :=
  featureLoop command_map api_name profile target (sortFeatures features api_name) sets

/-- Plain sequential application of feature blocks, with no version check:
the reference point for what the version walk actually applies. -/
def opsFoldFeatures (command_map : EntityMap CommandInfo) (api_name profile : String) :
    List Feature → EntitySets → Except GalError EntitySets
  | [], sets => .ok sets
  | f :: fs, sets =>
    match processOperations command_map api_name profile f.ops sets with
    | .error e => .error e
    | .ok sets' => opsFoldFeatures command_map api_name profile fs sets'

/-- One `<extension>` element: its `name` attribute, its `supported`
attribute (a regular-expression pattern over API names) and its directive
blocks. -/
structure Extension where
  name : String
  supported : String
  ops : List Operation
deriving DecidableEq

/-- The running state of extension processing: the selection sets, the
still-unsatisfied requested extension names (`options.extensions`) and the
warnings printed so far. -/
structure ExtState where
  sets : EntitySets
  requested : List String
  warnings : List String
deriving DecidableEq

/-- The warning printed for a requested extension whose `supported` pattern
does not match the target API. -/
def extWarning (ext_name api_name : String) : String :=
  "WARNING: extension " ++ ext_name ++ " requested, but not supported by API " ++ api_name

/-- The body of the extension loop of `generate` for one `<extension>`
element.  `rmatch pattern api` stands for the C++
`std::regex_match(api, std::regex("^" + pattern + "$"))`: a full (anchored)
ECMAScript regular-expression match of the pattern against the API name,
which we keep abstract.  A requested and supported extension is applied via
`processOperations` and erased from the requested set; a requested but
unsupported one produces a warning and is left requested; an unrequested one
is ignored. -/
def processExtension (rmatch : String → String → Bool)
    (command_map : EntityMap CommandInfo) (api_name profile : String)
    (ext : Extension) (st : ExtState) : Except GalError ExtState :=
  if ext.name = "" then .error (.fatal "Extension missing name attribute")
  else if ext.supported = "" then .error (.fatal "Extension missing supported attribute")
  else if ext.name ∈ st.requested ∧ rmatch ext.supported api_name = true then
    match processOperations command_map api_name profile ext.ops st.sets with
    | .error e => .error e
    | .ok sets' => .ok ⟨sets', st.requested.filter (fun n => n ≠ ext.name), st.warnings⟩
  else if ext.name ∈ st.requested then
    .ok ⟨st.sets, st.requested, st.warnings ++ [extWarning ext.name api_name]⟩
  else .ok st

/-- The extension loop of `generate`: scan every `<extension>` element in
document order. -/
def processExtensions (rmatch : String → String → Bool)
    (command_map : EntityMap CommandInfo) (api_name profile : String) :
    List Extension → ExtState → Except GalError ExtState
  | [], st => .ok st
  | ext :: exts, st =>
    match processExtension rmatch command_map api_name profile ext st with
    | .error e => .error e
    | .ok st' => processExtensions rmatch command_map api_name profile exts st'

/-- The message of the fatal error raised when requested extensions remain
unsatisfied: the C++ copies the remaining names into one stream with a
`", "` delimiter appended after each. -/
def remainingExtensionsMsg (names : List String) : String :=
  "Invalid extensions specified: " ++ String.join (names.map (fun n => n ++ ", "))

/-- Extension resolution in `generate`: scan all extension blocks, then fail
fatally when any requested extension was never consumed, with a single
message naming every remaining one. -/
def resolveExtensions (rmatch : String → String → Bool)
    (command_map : EntityMap CommandInfo) (api_name profile : String)
    (exts : List Extension) (st : ExtState) : Except GalError ExtState :=
  match processExtensions rmatch command_map api_name profile exts st with
  | .error e => .error e
  | .ok st' =>
    if st'.requested = [] then .ok st'
    else .error (.fatal (remainingExtensionsMsg st'.requested))

/-- The state of type emission: the names whose `ApiEntity` carries a set
`processed_` flag, and the `TypeInfo`s handed to the output generator, in
order. -/
structure EmitState where
  processed : List String
  emitted : List TypeInfo
deriving DecidableEq

/-- The recursive lambda `output_type` of `generate`: resolve the entity's
variant for the target API (fatal when none), return at once when the
entity is already processed, otherwise first emit the required type (when a
`requires` edge is declared), then emit this type and mark it processed.
The C++ recursion is unbounded; `fuel` models the stack. -/
def output_type (type_map : EntityMap TypeInfo) (api_name : String) :
    Nat → String → EmitState → Except GalError EmitState
  | 0, _, _ => .error .fuelOut
  | fuel + 1, name, st =>
    match ApiEntity.get (getVariants type_map name) api_name with
    | none => .error (.fatal ("Couldnt find type for api " ++ api_name))
    | some info =>
      if name ∈ st.processed then .ok st
      else if info.requires ≠ "" then
        match output_type type_map api_name fuel info.requires st with
        | .error e => .error e
        | .ok st1 => .ok ⟨st1.processed ++ [name], st1.emitted ++ [info]⟩
      else .ok ⟨st.processed ++ [name], st.emitted ++ [info]⟩

/-- The loop over the selected type names in `generate`: a name absent from
the type map is the documented fatal error, otherwise `output_type` runs. -/
def emitSelectedTypes (type_map : EntityMap TypeInfo) (api_name : String) (fuel : Nat) :
    List String → EmitState → Except GalError EmitState
  | [], st => .ok st
  | n :: ns, st =>
    match mapLookup type_map n with
    | none => .error (.fatal ("Reference to undefined type " ++ n))
    | some _ =>
      match output_type type_map api_name fuel n st with
      | .error e => .error e
      | .ok st' => emitSelectedTypes type_map api_name fuel ns st'

/-- Sequential unconditional `output_type` calls on a list of names (the
bootstrap calls of `generate`), stopping at the first failure exactly as
the `FAIL` macro exits the process. -/
def outputTypeList (type_map : EntityMap TypeInfo) (api_name : String) (fuel : Nat) :
    List String → EmitState → Except GalError EmitState
  | [], st => .ok st
  | n :: ns, st =>
    match output_type type_map api_name fuel n st with
    | .error e => .error e
    | .ok st1 => outputTypeList type_map api_name fuel ns st1

/-- The fixed bootstrap set force-visited by `generate` before the main
selected-type loop. -/
def bootstrapTypes : List String := ["GLenum", "GLuint", "GLsizei", "GLchar"]

/-- Type emission in `generate`: the four bootstrap types are force-visited
first, unconditionally, then the selected type names are walked. -/
def emitTypes (type_map : EntityMap TypeInfo) (api_name : String) (fuel : Nat)
    (selected : List String) (st : EmitState) : Except GalError EmitState :=
  match outputTypeList type_map api_name fuel bootstrapTypes st with
  | .error e => .error e
  | .ok st4 => emitSelectedTypes type_map api_name fuel selected st4

/-- The loop over the selected group names in `generate`: a name with no
entry in the group map is silently skipped (registry rules permit
undeclared group references); an entry with no variant for the target API
is the documented fatal error. -/
def emitGroups (group_map : EntityMap GroupInfo) (api_name : String) :
    List String → Except GalError (List GroupInfo)
  | [] => .ok []
  | n :: ns =>
    match mapLookup group_map n with
    | none => emitGroups group_map api_name ns
    | some variants =>
      match ApiEntity.get variants api_name with
      | none => .error (.fatal ("Failed to find group " ++ n ++ " for api " ++ api_name))
      | some info =>
        match emitGroups group_map api_name ns with
        | .error e => .error e
        | .ok rest => .ok (info :: rest)

/-- The loop over the selected enumerant names in `generate`: both an
absent entry and a missing variant for the target API are documented fatal
errors. -/
def emitEnums (enum_map : EntityMap EnumerantInfo) (api_name : String) :
    List String → Except GalError (List EnumerantInfo)
  | [] => .ok []
  | n :: ns =>
    match mapLookup enum_map n with
    | none => .error (.fatal ("Reference to undefined enumerant " ++ n))
    | some variants =>
      match ApiEntity.get variants api_name with
      | none => .error (.fatal ("Failed to find enumerant " ++ n ++ " for api " ++ api_name))
      | some info =>
        match emitEnums enum_map api_name ns with
        | .error e => .error e
        | .ok rest => .ok (info :: rest)

/-- The loop over the selected command names in `generate`: both an absent
entry and a missing variant for the target API are documented fatal
errors. -/
def emitCommands (command_map : EntityMap CommandInfo) (api_name : String) :
    List String → Except GalError (List CommandInfo)
  | [] => .ok []
  | n :: ns =>
    match mapLookup command_map n with
    | none => .error (.fatal ("Reference to undefined command " ++ n))
    | some variants =>
      match ApiEntity.get variants api_name with
      | none => .error (.fatal ("Failed to find command " ++ n ++ " for api " ++ api_name))
      | some info =>
        match emitCommands command_map api_name ns with
        | .error e => .error e
        | .ok rest => .ok (info :: rest)

/-- Resolving the member `<enum name="...">` references of a group against
the already loaded enumerant map, in order (the loop of
`populateEntity(GroupInfo*, ...)` in galogen.cpp): a reference to an
undefined enumerant, or one with no variant for the target API, is a fatal
error at load time. -/
def groupEnumRefs (enum_map : EntityMap EnumerantInfo) (api_name : String) :
    List String → Except GalError (List EnumerantInfo)
  | [] => .ok []
  | r :: rs =>
    match mapLookup enum_map r with
    | none => .error (.fatal ("Reference to undefined enum " ++ r))
    | some variants =>
      match ApiEntity.get variants api_name with
      | none => .error (.fatal ("Failed to find enum " ++ r ++ " for api " ++ api_name))
      | some info =>
        match groupEnumRefs enum_map api_name rs with
        | .error e => .error e
        | .ok rest => .ok (info :: rest)

/-- The `populateEntity(GroupInfo*, ...)` from galogen.cpp: the group's name is
required, and its member references must all resolve at load time. -/
def populateGroupEntity (enum_map : EntityMap EnumerantInfo) (api_name : String)
    (name : String) (enum_refs : List String) : Except GalError GroupInfo :=
  if name = "" then .error (.fatal "Group missing name attribute")
  else
    match groupEnumRefs enum_map api_name enum_refs with
    | .error e => .error e
    | .ok enums => .ok ⟨name, enums, ""⟩

/-! Section: Basic lemmas about the selection-set operations -/

theorem mem_listInsert_self (l : List String) (x : String) : x ∈ listInsert l x := by
  unfold listInsert
  split
  · assumption
  · simp

theorem mem_listInsert_of_mem {l : List String} {y : String} (x : String)
    (h : y ∈ l) : y ∈ listInsert l x := by
  unfold listInsert
  split
  · exact h
  · simp [h]

theorem getSet_setsInsert (sets : EntitySets) (k x k' : String) :
    getSet (setsInsert sets k x) k' =
      if k = k' then listInsert (getSet sets k) x else getSet sets k' := by
  induction sets with
  | nil =>
    simp only [setsInsert, getSet]
    by_cases h : k = k' <;> simp [h, getSet, listInsert]
  | cons kv rest ih =>
    obtain ⟨k0, v⟩ := kv
    simp only [setsInsert]
    by_cases h0 : k0 = k
    · subst h0
      by_cases h1 : k0 = k'
      · subst h1; simp [getSet]
      · simp [getSet, h1, Ne.symm h1]
    · simp only [if_neg h0, getSet]
      by_cases h1 : k0 = k'
      · subst h1
        have : ¬ k = k0 := fun h => h0 h.symm
        simp [this]
      · simp [h1, ih]

theorem getSet_setsErase (sets : EntitySets) (k x k' : String) :
    getSet (setsErase sets k x) k' =
      if k = k' then (getSet sets k).filter (fun y => y ≠ x) else getSet sets k' := by
  induction sets with
  | nil =>
    simp only [setsErase, getSet]
    by_cases h : k = k' <;> simp [h, getSet]
  | cons kv rest ih =>
    obtain ⟨k0, v⟩ := kv
    simp only [setsErase]
    by_cases h0 : k0 = k
    · subst h0
      by_cases h1 : k0 = k'
      · subst h1; simp [getSet]
      · simp [getSet, h1, Ne.symm h1]
    · simp only [if_neg h0, getSet]
      by_cases h1 : k0 = k'
      · subst h1
        have : ¬ k = k0 := fun h => h0 h.symm
        simp [this]
      · simp [h1, ih]

theorem mem_getSet_setsInsert_self (sets : EntitySets) (k x : String) :
    x ∈ getSet (setsInsert sets k x) k := by
  rw [getSet_setsInsert]
  simp [mem_listInsert_self]

theorem mem_getSet_setsInsert_of_mem {sets : EntitySets} {k' y : String} (k x : String)
    (h : y ∈ getSet sets k') : y ∈ getSet (setsInsert sets k x) k' := by
  rw [getSet_setsInsert]
  split
  · next heq => subst heq; exact mem_listInsert_of_mem x h
  · exact h

/-! Section: Basic lemmas about the version order -/

theorem ApiVersion.le_iff (a b : ApiVersion) :
    a.le b = true ↔
      (a.ver_maj_ < b.ver_maj_ ∨ (a.ver_maj_ = b.ver_maj_ ∧ a.ver_min_ ≤ b.ver_min_)) := by
  unfold ApiVersion.le
  split_ifs with h1 h2
  · simp only [true_iff]
    exact Or.inl h1
  · simp only [decide_eq_true_eq]
    constructor
    · intro h; exact Or.inr ⟨h2, h⟩
    · rintro (h | ⟨_, h⟩)
      · omega
      · exact h
  · simp only [Bool.false_eq_true, false_iff]
    omega

theorem ApiVersion.le_refl (a : ApiVersion) : a.le a = true := by
  rw [ApiVersion.le_iff]; omega

theorem ApiVersion.le_trans {a b c : ApiVersion}
    (hab : a.le b = true) (hbc : b.le c = true) : a.le c = true := by
  rw [ApiVersion.le_iff] at *
  omega

theorem ApiVersion.le_total (a b : ApiVersion) : a.le b = true ∨ b.le a = true := by
  rw [ApiVersion.le_iff, ApiVersion.le_iff]
  omega

instance : IsTotal Feature featLe :=
  ⟨fun a b => ApiVersion.le_total (ApiVersion.parse a.number) (ApiVersion.parse b.number)⟩

instance : IsTrans Feature featLe :=
  ⟨fun _ _ _ hab hbc => ApiVersion.le_trans hab hbc⟩

/-! Section: C4: variant lookup (`ApiEntity::get`) -/

/-- Whether a variant is tagged specifically for `api_name`. -/
def isSpecificFor {T : Type} [HasApi T] (api_name : String) (e : T) : Bool :=
  decide (HasApi.api e ≠ "" ∧ HasApi.api e = api_name)

/-- Whether a variant is default-tagged (empty `api`). -/
def isDefaultTagged {T : Type} [HasApi T] (e : T) : Bool :=
  decide (HasApi.api e = "")

theorem ApiEntity.getAux {T : Type} [HasApi T] (api_name : String) (l : List T)
    (r : Option T) :
    l.foldl (getStep api_name) r =
      match (l.filter (isSpecificFor api_name)).getLast? with
      | some e => some e
      | none =>
        match r with
        | some y => some y
        | none => (l.filter isDefaultTagged).head? := by
  induction l generalizing r with
  | nil => cases r <;> simp
  | cons e l ih =>
    rw [List.foldl_cons, ih]
    by_cases hdef : HasApi.api e = ""
    · have hspec : isSpecificFor api_name e = false :=
        decide_eq_false (fun hh => hh.1 hdef)
      have hdefb : isDefaultTagged e = true := decide_eq_true hdef
      have hf1 : List.filter (isSpecificFor api_name) (e :: l) =
          List.filter (isSpecificFor api_name) l := by
        simp [List.filter_cons, hspec]
      have hf2 : List.filter isDefaultTagged (e :: l) =
          e :: List.filter isDefaultTagged l := by
        simp [List.filter_cons, hdefb]
      rw [hf1, hf2]
      cases r with
      | none =>
        rw [show getStep api_name (none : Option T) e = some e by
          unfold getStep; rw [if_pos hdef]]
        cases h : (l.filter (isSpecificFor api_name)).getLast? <;> rfl
      | some y =>
        rw [show getStep api_name (some y) e = some y by
          unfold getStep; rw [if_pos hdef]]
    · by_cases hmatch : HasApi.api e = api_name
      · have hspec : isSpecificFor api_name e = true :=
          decide_eq_true ⟨hdef, hmatch⟩
        have hf1 : List.filter (isSpecificFor api_name) (e :: l) =
            e :: List.filter (isSpecificFor api_name) l := by
          simp [List.filter_cons, hspec]
        rw [hf1, List.getLast?_cons,
          show getStep api_name r e = some e by
            unfold getStep; rw [if_neg hdef, if_pos hmatch]]
        cases h : (l.filter (isSpecificFor api_name)).getLast? <;> simp [h]
      · have hspec : isSpecificFor api_name e = false :=
          decide_eq_false (fun hh => hmatch hh.2)
        have hdefb : isDefaultTagged e = false := decide_eq_false hdef
        have hf1 : List.filter (isSpecificFor api_name) (e :: l) =
            List.filter (isSpecificFor api_name) l := by
          simp [List.filter_cons, hspec]
        have hf2 : List.filter isDefaultTagged (e :: l) =
            List.filter isDefaultTagged l := by
          simp [List.filter_cons, hdefb]
        rw [hf1, hf2, show getStep api_name r e = r by
          unfold getStep; rw [if_neg hdef, if_neg hmatch]]

/-- C4 (amended): for every `ApiEntity` variant list and requested API name,
lookup returns the variant tagged specifically for that API if one exists —
and when several specific variants match, the one encountered *last* wins —
otherwise the default-tagged variant if one exists — and when several
default variants exist, the one encountered *first* wins — otherwise a
lookup failure (`none`). -/
theorem c4_lookup_tie_break {T : Type} [HasApi T] (set_ : List T) (api_name : String) :
    ApiEntity.get set_ api_name =
      match (set_.filter (isSpecificFor api_name)).getLast? with
      | some e => some e
      | none => (set_.filter isDefaultTagged).head? := by
  unfold ApiEntity.get
  rw [ApiEntity.getAux]

/-! Section: C2: implicit dependency inference for commands -/

theorem mem_getSet_paramStep {sets : EntitySets} {k y : String} (p : ParamInfo)
    (h : y ∈ getSet sets k) : y ∈ getSet (paramStep p sets) k := by
  unfold paramStep
  split_ifs with h1 h2 h3
  · exact mem_getSet_setsInsert_of_mem _ _ (mem_getSet_setsInsert_of_mem _ _ h)
  · exact mem_getSet_setsInsert_of_mem _ _ h
  · exact mem_getSet_setsInsert_of_mem _ _ h
  · exact h

theorem paramStep_mem_type {p : ParamInfo} (sets : EntitySets)
    (h : p.referenced_api_type ≠ "") :
    p.referenced_api_type ∈ getSet (paramStep p sets) "type" := by
  unfold paramStep
  simp only [if_pos h]
  split_ifs with h2
  · exact mem_getSet_setsInsert_of_mem _ _ (mem_getSet_setsInsert_self _ _ _)
  · exact mem_getSet_setsInsert_self _ _ _

theorem paramStep_mem_group {p : ParamInfo} (sets : EntitySets)
    (h : p.group ≠ "") : p.group ∈ getSet (paramStep p sets) "group" := by
  unfold paramStep
  split_ifs with h1
  · exact mem_getSet_setsInsert_self _ _ _
  · exact mem_getSet_setsInsert_self _ _ _

theorem mem_getSet_paramFold {k y : String} (params : List ParamInfo)
    (sets : EntitySets) (h : y ∈ getSet sets k) :
    y ∈ getSet (paramFold params sets) k := by
  induction params generalizing sets with
  | nil => exact h
  | cons p ps ih => exact ih (paramStep p sets) (mem_getSet_paramStep p h)

theorem paramFold_mem_type {p : ParamInfo} {params : List ParamInfo}
    (sets : EntitySets) (hp : p ∈ params) (h : p.referenced_api_type ≠ "") :
    p.referenced_api_type ∈ getSet (paramFold params sets) "type" := by
  induction params generalizing sets with
  | nil => cases hp
  | cons q ps ih =>
    rcases List.mem_cons.mp hp with rfl | hmem
    · exact mem_getSet_paramFold ps _ (paramStep_mem_type sets h)
    · exact ih _ hmem

theorem paramFold_mem_group {p : ParamInfo} {params : List ParamInfo}
    (sets : EntitySets) (hp : p ∈ params) (h : p.group ≠ "") :
    p.group ∈ getSet (paramFold params sets) "group" := by
  induction params generalizing sets with
  | nil => cases hp
  | cons q ps ih =>
    rcases List.mem_cons.mp hp with rfl | hmem
    · exact mem_getSet_paramFold ps _ (paramStep_mem_group sets h)
    · exact ih _ hmem

/-- C2: for every `require` directive naming a command (with the command's
variant resolving for the target API — in a non-skipped block this is the
inner-loop body `applyRef` with `require = true`): the resulting selection
contains the command's name in the command set and additionally, in the
type set, the API-specific type referenced by the command's return type
(when non-empty) and by each parameter (when non-empty), and, in the group
set, the group referenced by each parameter (when non-empty).  For every
`remove` directive naming a command: only the command's name is erased from
the command set, and the type and group sets are unchanged. -/
theorem c2_command_inference (command_map : EntityMap CommandInfo)
    (api_name name : String) (sets : EntitySets)
    (variants : List CommandInfo) (command : CommandInfo)
    (hname : name ≠ "")
    (hlook : mapLookup command_map name = some variants)
    (hget : ApiEntity.get variants api_name = some command) :
    (∃ sets', applyRef command_map api_name true ⟨"command", name⟩ sets = .ok sets' ∧
      name ∈ getSet sets' "command" ∧
      (command.referenced_api_type ≠ "" →
        command.referenced_api_type ∈ getSet sets' "type") ∧
      (∀ p ∈ command.parameters, p.referenced_api_type ≠ "" →
        p.referenced_api_type ∈ getSet sets' "type") ∧
      (∀ p ∈ command.parameters, p.group ≠ "" →
        p.group ∈ getSet sets' "group")) ∧
    applyRef command_map api_name false ⟨"command", name⟩ sets =
      .ok (setsErase sets "command" name) ∧
    (∀ k, k ≠ "command" →
      getSet (setsErase sets "command" name) k = getSet sets k) ∧
    getSet (setsErase sets "command" name) "command" =
      (getSet sets "command").filter (fun y => y ≠ name) := by
  have heq : applyRef command_map api_name true ⟨"command", name⟩ sets =
      .ok (paramFold command.parameters
        (if command.referenced_api_type ≠ ""
         then setsInsert (setsInsert sets "command" name) "type" command.referenced_api_type
         else setsInsert sets "command" name)) := by
    unfold applyRef
    rw [if_neg hname]
    simp only [hlook, hget]
    exact rfl
  refine ⟨⟨_, heq, ?_, ?_, ?_, ?_⟩, ?_, ?_, ?_⟩
  · apply mem_getSet_paramFold
    split_ifs with h1
    · exact mem_getSet_setsInsert_of_mem _ _ (mem_getSet_setsInsert_self _ _ _)
    · exact mem_getSet_setsInsert_self _ _ _
  · intro h1
    apply mem_getSet_paramFold
    rw [if_pos h1]
    exact mem_getSet_setsInsert_self _ _ _
  · intro p hp h1
    exact paramFold_mem_type _ hp h1
  · intro p hp h1
    exact paramFold_mem_group _ hp h1
  · unfold applyRef
    rw [if_neg hname]
    exact rfl
  · intro k hk
    rw [getSet_setsErase, if_neg (fun hh => hk hh.symm)]
  · rw [getSet_setsErase, if_pos rfl]

/-- A concrete command for the C2 witness: return type references `GLenum`,
the parameter references type `GLuint` and group `Boolean`. -/
def c2cmd : CommandInfo :=
  ⟨"glTestCmd", "GLenum glTestCmd", "GLenum", "GLenum",
    [⟨"param0", "GLuint", "GLuint", "Boolean", ""⟩], "", "", ""⟩

/-- C2 (witness): the theorem instantiated at a one-command map and an
empty selection. -/
theorem c2_command_inference_witness :
    ("glTestCmd" : String) ≠ "" ∧
    mapLookup [("glTestCmd", [c2cmd])] "glTestCmd" = some [c2cmd] ∧
    ApiEntity.get [c2cmd] "gl" = some c2cmd ∧
    ((∃ sets', applyRef [("glTestCmd", [c2cmd])] "gl" true ⟨"command", "glTestCmd"⟩ [] = .ok sets' ∧
      "glTestCmd" ∈ getSet sets' "command" ∧
      (c2cmd.referenced_api_type ≠ "" →
        c2cmd.referenced_api_type ∈ getSet sets' "type") ∧
      (∀ p ∈ c2cmd.parameters, p.referenced_api_type ≠ "" →
        p.referenced_api_type ∈ getSet sets' "type") ∧
      (∀ p ∈ c2cmd.parameters, p.group ≠ "" →
        p.group ∈ getSet sets' "group")) ∧
    applyRef [("glTestCmd", [c2cmd])] "gl" false ⟨"command", "glTestCmd"⟩ [] =
      .ok (setsErase [] "command" "glTestCmd") ∧
    (∀ k, k ≠ "command" →
      getSet (setsErase [] "command" "glTestCmd") k = getSet [] k) ∧
    getSet (setsErase [] "command" "glTestCmd") "command" =
      (getSet [] "command").filter (fun y => y ≠ "glTestCmd")) :=
  ⟨by decide, by decide, by decide,
    c2_command_inference [("glTestCmd", [c2cmd])] "gl" "glTestCmd" [] [c2cmd] c2cmd
      (by decide) (by decide) (by decide)⟩

/-! Section: C1: version resolution walk -/

theorem featureLoop_eq_takeWhile (command_map : EntityMap CommandInfo)
    (api_name profile : String) (target : ApiVersion) (l : List Feature)
    (sets : EntitySets) :
    featureLoop command_map api_name profile target l sets =
      opsFoldFeatures command_map api_name profile
        (l.takeWhile (fun f => (ApiVersion.parse f.number).le target)) sets := by
  induction l generalizing sets with
  | nil => rfl
  | cons f fs ih =>
    rw [List.takeWhile_cons]
    by_cases h : (ApiVersion.parse f.number).le target = true
    · have hgt : (ApiVersion.parse f.number).gt target = false := by
        unfold ApiVersion.gt
        rw [h]
        rfl
      unfold featureLoop
      rw [if_neg (by simp [hgt]), if_pos h]
      unfold opsFoldFeatures
      cases hp : processOperations command_map api_name profile f.ops sets with
      | error e => rfl
      | ok sets' => exact ih sets'
    · have hle : (ApiVersion.parse f.number).le target = false :=
        Bool.eq_false_iff.mpr h
      have hgt : (ApiVersion.parse f.number).gt target = true := by
        unfold ApiVersion.gt
        rw [hle]
        rfl
      unfold featureLoop
      rw [if_pos hgt, if_neg h]
      rfl

theorem opsFoldFeatures_append (command_map : EntityMap CommandInfo)
    (api_name profile : String) (l1 l2 : List Feature) (sets : EntitySets) :
    opsFoldFeatures command_map api_name profile (l1 ++ l2) sets =
      match opsFoldFeatures command_map api_name profile l1 sets with
      | .error e => .error e
      | .ok sets' => opsFoldFeatures command_map api_name profile l2 sets' := by
  induction l1 generalizing sets with
  | nil => rfl
  | cons f fs ih =>
    simp only [List.cons_append, opsFoldFeatures]
    cases hp : processOperations command_map api_name profile f.ops sets with
    | error e => rfl
    | ok sets' => exact ih sets'

theorem takeWhile_sub {α : Type} (p1 p2 : α → Bool)
    (hmono : ∀ a, p1 a = true → p2 a = true) (l : List α) :
    ∃ t, l.takeWhile p2 = l.takeWhile p1 ++ t := by
  induction l with
  | nil => exact ⟨[], rfl⟩
  | cons a l ih =>
    rw [List.takeWhile_cons, List.takeWhile_cons]
    by_cases h : p1 a = true
    · rw [if_pos h, if_pos (hmono a h)]
      obtain ⟨t, ht⟩ := ih
      exact ⟨t, by rw [ht, List.cons_append]⟩
    · rw [if_neg h]
      exact ⟨_, (List.nil_append _).symm⟩

theorem mem_of_takeWhile_mem {α : Type} {p : α → Bool} {l : List α} {x : α}
    (h : x ∈ l.takeWhile p) : x ∈ l := by
  induction l with
  | nil => exact absurd h (List.not_mem_nil x)
  | cons a l ih =>
    rw [List.takeWhile_cons] at h
    by_cases hp : p a = true
    · rw [if_pos hp] at h
      rcases List.mem_cons.mp h with rfl | hm
      · exact List.mem_cons_self _ _
      · exact List.mem_cons_of_mem _ (ih hm)
    · rw [if_neg hp] at h
      cases h

theorem mem_takeWhile_of_pairwise {α : Type} {R : α → α → Prop} {p : α → Bool}
    {l : List α} (hp : l.Pairwise R)
    (hmono : ∀ a b, R a b → p b = true → p a = true) :
    ∀ x ∈ l, p x = true → x ∈ l.takeWhile p := by
  induction l with
  | nil => intro x hx; cases hx
  | cons a l ih =>
    intro x hx hpx
    rw [List.takeWhile_cons]
    rcases List.mem_cons.mp hx with rfl | hmem
    · rw [if_pos hpx]
      exact List.mem_cons_self _ _
    · have hpa : p a = true := hmono a x (List.rel_of_pairwise_cons hp hmem) hpx
      rw [if_pos hpa]
      exact List.mem_cons_of_mem _ (ih (List.Pairwise.of_cons hp) x hmem hpx)

/-- C1: for every registry, target API, target version and profile: the
version-feature blocks tagged for the target API are a permutation sorted
ascending by parsed (major, minor) version; the version walk equals the
plain sequential application of exactly the ascending prefix of blocks
whose version is less than or equal to the target (so processing stops at
the first block exceeding the target and applies no later block); and every
block whose version is ≤ the target — the boundary being inclusive — is in
that applied prefix. -/
theorem c1_version_walk (features : List Feature) (command_map : EntityMap CommandInfo)
    (api_name profile : String) (target : ApiVersion) (sets : EntitySets) :
    (sortFeatures features api_name).Perm
      (features.filter (fun f => f.api == api_name)) ∧
    (sortFeatures features api_name).Pairwise featLe ∧
    resolveFeatures command_map api_name profile target features sets =
      opsFoldFeatures command_map api_name profile
        ((sortFeatures features api_name).takeWhile
          (fun f => (ApiVersion.parse f.number).le target)) sets ∧
    (∀ f ∈ sortFeatures features api_name,
      (ApiVersion.parse f.number).le target = true →
      f ∈ (sortFeatures features api_name).takeWhile
        (fun f => (ApiVersion.parse f.number).le target)) := by
  refine ⟨List.perm_insertionSort featLe _, List.sorted_insertionSort featLe _, ?_, ?_⟩
  · exact featureLoop_eq_takeWhile command_map api_name profile target _ sets
  · exact mem_takeWhile_of_pairwise (List.sorted_insertionSort featLe _)
      (fun a b hab hb => ApiVersion.le_trans hab hb)

/-! Section: C10: monotonicity of remove-free resolution -/

theorem applyRef_require_extensive {command_map : EntityMap CommandInfo}
    {api_name : String} {ref : EntityRef} {sets sets' : EntitySets}
    (h : applyRef command_map api_name true ref sets = .ok sets') :
    ∀ k y, y ∈ getSet sets k → y ∈ getSet sets' k := by
  unfold applyRef at h
  by_cases hn : ref.name = ""
  · rw [if_pos hn] at h
    cases h
  · rw [if_neg hn, if_pos (Eq.refl true)] at h
    by_cases ht : ref.tag = "command"
    · rw [if_pos ht] at h
      cases hl : mapLookup command_map ref.name with
      | none =>
        simp only [hl] at h
        cases h
      | some variants =>
        simp only [hl] at h
        cases hg : ApiEntity.get variants api_name with
        | none =>
          simp only [hg] at h
          cases h
        | some command =>
          simp only [hg, Except.ok.injEq] at h
          subst h
          intro k y hy
          apply mem_getSet_paramFold
          split_ifs
          · exact mem_getSet_setsInsert_of_mem _ _ (mem_getSet_setsInsert_of_mem _ _ hy)
          · exact mem_getSet_setsInsert_of_mem _ _ hy
    · rw [if_neg ht] at h
      cases h
      intro k y hy
      exact mem_getSet_setsInsert_of_mem _ _ hy

theorem applyRefList_require_extensive {command_map : EntityMap CommandInfo}
    {api_name : String} {refs : List EntityRef} {sets sets' : EntitySets}
    (h : applyRefList command_map api_name true refs sets = .ok sets') :
    ∀ k y, y ∈ getSet sets k → y ∈ getSet sets' k := by
  induction refs generalizing sets with
  | nil =>
    cases h
    exact fun k y hy => hy
  | cons r rs ih =>
    unfold applyRefList at h
    cases hr : applyRef command_map api_name true r sets with
    | error e =>
      rw [hr] at h
      cases h
    | ok sets1 =>
      rw [hr] at h
      intro k y hy
      exact ih h k y (applyRef_require_extensive hr k y hy)

theorem processOperation_require_extensive {command_map : EntityMap CommandInfo}
    {api_name profile : String} {op : Operation} {sets sets' : EntitySets}
    (hreq : opApplicable op profile → op.tag = "require")
    (h : processOperation command_map api_name profile op sets = .ok sets') :
    ∀ k y, y ∈ getSet sets k → y ∈ getSet sets' k := by
  unfold processOperation at h
  by_cases ha : opApplicable op profile
  · rw [if_pos ha] at h
    have htag : op.tag = "require" := hreq ha
    rw [show (decide (op.tag = "require")) = true from decide_eq_true htag] at h
    exact applyRefList_require_extensive h
  · rw [if_neg ha] at h
    cases h
    exact fun k y hy => hy

theorem processOperations_require_extensive {command_map : EntityMap CommandInfo}
    {api_name profile : String} {ops : List Operation} {sets sets' : EntitySets}
    (hreq : ∀ op ∈ ops, opApplicable op profile → op.tag = "require")
    (h : processOperations command_map api_name profile ops sets = .ok sets') :
    ∀ k y, y ∈ getSet sets k → y ∈ getSet sets' k := by
  induction ops generalizing sets with
  | nil =>
    cases h
    exact fun k y hy => hy
  | cons op ops ih =>
    unfold processOperations at h
    cases ho : processOperation command_map api_name profile op sets with
    | error e =>
      rw [ho] at h
      cases h
    | ok sets1 =>
      rw [ho] at h
      intro k y hy
      exact ih (fun o hm => hreq o (List.mem_cons_of_mem _ hm)) h k y
        (processOperation_require_extensive (hreq op (List.mem_cons_self _ _)) ho k y hy)

theorem opsFoldFeatures_require_extensive {command_map : EntityMap CommandInfo}
    {api_name profile : String} {l : List Feature} {sets sets' : EntitySets}
    (hreq : ∀ f ∈ l, ∀ op ∈ f.ops, opApplicable op profile → op.tag = "require")
    (h : opsFoldFeatures command_map api_name profile l sets = .ok sets') :
    ∀ k y, y ∈ getSet sets k → y ∈ getSet sets' k := by
  induction l generalizing sets with
  | nil =>
    cases h
    exact fun k y hy => hy
  | cons f fs ih =>
    unfold opsFoldFeatures at h
    cases hf : processOperations command_map api_name profile f.ops sets with
    | error e =>
      rw [hf] at h
      cases h
    | ok sets1 =>
      rw [hf] at h
      intro k y hy
      exact ih (fun g hm => hreq g (List.mem_cons_of_mem _ hm)) h k y
        (processOperations_require_extensive (hreq f (List.mem_cons_self _ _)) hf k y hy)

/-- C10: for every registry whose feature blocks for the target API contain
no `remove` directives applicable under the requested profile, and every
pair of target versions `v1 ≤ v2`: when resolution up to `v2` succeeds,
resolution up to `v1` succeeds too, and its selection state is contained,
category by category, in the one produced for `v2`. -/
theorem c10_monotonicity (features : List Feature) (command_map : EntityMap CommandInfo)
    (api_name profile : String) (v1 v2 : ApiVersion) (sets s2 : EntitySets)
    (h12 : v1.le v2 = true)
    (hnorem : ∀ f ∈ features, f.api = api_name →
      ∀ op ∈ f.ops, opApplicable op profile → op.tag = "require")
    (hexec : resolveFeatures command_map api_name profile v2 features sets = .ok s2) :
    ∃ s1, resolveFeatures command_map api_name profile v1 features sets = .ok s1 ∧
      ∀ k y, y ∈ getSet s1 k → y ∈ getSet s2 k := by
  have hsub : ∀ f : Feature, ((ApiVersion.parse f.number).le v1) = true →
      ((ApiVersion.parse f.number).le v2) = true :=
    fun f hf => ApiVersion.le_trans hf h12
  obtain ⟨t, ht⟩ := takeWhile_sub (fun f => (ApiVersion.parse f.number).le v1)
    (fun f => (ApiVersion.parse f.number).le v2) hsub (sortFeatures features api_name)
  unfold resolveFeatures at hexec ⊢
  rw [featureLoop_eq_takeWhile] at hexec ⊢
  rw [ht, opsFoldFeatures_append] at hexec
  cases hc : opsFoldFeatures command_map api_name profile
      ((sortFeatures features api_name).takeWhile
        (fun f => (ApiVersion.parse f.number).le v1)) sets with
  | error e =>
    rw [hc] at hexec
    cases hexec
  | ok s1 =>
    rw [hc] at hexec
    refine ⟨s1, rfl, ?_⟩
    have hmem : ∀ f ∈ t, ∀ op ∈ f.ops, opApplicable op profile → op.tag = "require" := by
      intro f hf
      have hfs : f ∈ sortFeatures features api_name := by
        have h1 : f ∈ (sortFeatures features api_name).takeWhile
            (fun f => (ApiVersion.parse f.number).le v2) := by
          rw [ht]
          exact List.mem_append_right _ hf
        exact mem_of_takeWhile_mem h1
      have hfl : f ∈ features.filter (fun f => f.api == api_name) :=
        (List.perm_insertionSort featLe _).mem_iff.mp hfs
      obtain ⟨hmemf, hapi⟩ := List.mem_filter.mp hfl
      exact hnorem f hmemf (by simpa using hapi)
    exact opsFoldFeatures_require_extensive hmem hexec

/-- Features for the C10 witness: two require-only blocks, listed out of
version order. -/
def c10features : List Feature :=
  [⟨"gl", "2.0", [⟨"require", none, [⟨"enum", "E2"⟩]⟩]⟩,
   ⟨"gl", "1.0", [⟨"require", none, [⟨"enum", "E1"⟩]⟩]⟩]

/-- C10 (witness): the monotonicity theorem instantiated at a two-version
remove-free registry, resolved at versions 1.0 and 2.0. -/
theorem c10_monotonicity_witness :
    (ApiVersion.mk 1 0 true).le ⟨2, 0, true⟩ = true ∧
    (∀ f ∈ c10features, f.api = "gl" →
      ∀ op ∈ f.ops, opApplicable op "core" → op.tag = "require") ∧
    resolveFeatures [] "gl" "core" ⟨2, 0, true⟩ c10features [] =
      .ok [("enum", ["E1", "E2"])] ∧
    (∃ s1, resolveFeatures [] "gl" "core" ⟨1, 0, true⟩ c10features [] = .ok s1 ∧
      ∀ k y, y ∈ getSet s1 k → y ∈ getSet [("enum", ["E1", "E2"])] k) :=
  ⟨by decide, by decide, by decide,
    c10_monotonicity c10features [] "gl" "core" ⟨1, 0, true⟩ ⟨2, 0, true⟩ []
      [("enum", ["E1", "E2"])] (by decide) (by decide) (by decide)⟩

/-! Section: C3: extension lifecycle -/

/-- C3: for every extension block (with non-empty name and supported
attributes) and run configuration — with `rmatch` standing for the anchored
full regular-expression match of the `supported` pattern against the target
API name: an extension that is requested and applicable has its directive
block applied through the operation applier and its name removed from the
requested set, with no warning; one that is requested but not applicable
produces a non-fatal warning and remains requested; one that is not
requested changes nothing; and after all blocks are scanned, a non-empty
requested set is a single fatal error naming every remaining extension,
while an empty one lets the run continue. -/
theorem c3_extension_lifecycle (rmatch : String → String → Bool)
    (command_map : EntityMap CommandInfo) (api_name profile : String)
    (ext : Extension) (st : ExtState)
    (hname : ext.name ≠ "") (hsup : ext.supported ≠ "") :
    (ext.name ∈ st.requested → rmatch ext.supported api_name = true →
      processExtension rmatch command_map api_name profile ext st =
        match processOperations command_map api_name profile ext.ops st.sets with
        | .error e => .error e
        | .ok sets' => .ok ⟨sets', st.requested.filter (fun n => n ≠ ext.name), st.warnings⟩) ∧
    (ext.name ∈ st.requested → rmatch ext.supported api_name = false →
      processExtension rmatch command_map api_name profile ext st =
        .ok ⟨st.sets, st.requested, st.warnings ++ [extWarning ext.name api_name]⟩) ∧
    (ext.name ∉ st.requested →
      processExtension rmatch command_map api_name profile ext st = .ok st) ∧
    (∀ exts st', processExtensions rmatch command_map api_name profile exts st = .ok st' →
      (st'.requested ≠ [] →
        resolveExtensions rmatch command_map api_name profile exts st =
          .error (.fatal (remainingExtensionsMsg st'.requested))) ∧
      (st'.requested = [] →
        resolveExtensions rmatch command_map api_name profile exts st = .ok st')) := by
  refine ⟨?_, ?_, ?_, ?_⟩
  · intro hreq hsupp
    unfold processExtension
    rw [if_neg hname, if_neg hsup, if_pos ⟨hreq, hsupp⟩]
  · intro hreq hsupp
    have hns : ¬(ext.name ∈ st.requested ∧ rmatch ext.supported api_name = true) := by
      intro hh
      rw [hsupp] at hh
      exact Bool.false_ne_true hh.2
    unfold processExtension
    rw [if_neg hname, if_neg hsup, if_neg hns, if_pos hreq]
  · intro hreq
    unfold processExtension
    rw [if_neg hname, if_neg hsup, if_neg (fun hh => hreq hh.1), if_neg hreq]
  · intro exts st' hscan
    unfold resolveExtensions
    simp only [hscan]
    constructor
    · intro hne
      rw [if_neg hne]
    · intro hnil
      rw [if_pos hnil]

/-- The abstract full-match used by the C3 witness: exact equality of
pattern and API name. -/
def c3rmatch : String → String → Bool := fun pat api => pat == api

/-- The extension block of the C3 witness. -/
def c3ext : Extension := ⟨"GL_test_ext", "gl", [⟨"require", none, [⟨"enum", "EX"⟩]⟩]⟩

/-- The extension-processing state of the C3 witness: one requested
extension, nothing selected, no warnings. -/
def c3st : ExtState := ⟨[], ["GL_test_ext"], []⟩

/-- C3 (witness): the lifecycle theorem instantiated at a one-extension
configuration. -/
theorem c3_extension_lifecycle_witness :
    c3ext.name ≠ "" ∧ c3ext.supported ≠ "" ∧
    ((c3ext.name ∈ c3st.requested → c3rmatch c3ext.supported "gl" = true →
      processExtension c3rmatch [] "gl" "core" c3ext c3st =
        match processOperations [] "gl" "core" c3ext.ops c3st.sets with
        | .error e => .error e
        | .ok sets' =>
          .ok ⟨sets', c3st.requested.filter (fun n => n ≠ c3ext.name), c3st.warnings⟩) ∧
    (c3ext.name ∈ c3st.requested → c3rmatch c3ext.supported "gl" = false →
      processExtension c3rmatch [] "gl" "core" c3ext c3st =
        .ok ⟨c3st.sets, c3st.requested, c3st.warnings ++ [extWarning c3ext.name "gl"]⟩) ∧
    (c3ext.name ∉ c3st.requested →
      processExtension c3rmatch [] "gl" "core" c3ext c3st = .ok c3st) ∧
    (∀ exts st', processExtensions c3rmatch [] "gl" "core" exts c3st = .ok st' →
      (st'.requested ≠ [] →
        resolveExtensions c3rmatch [] "gl" "core" exts c3st =
          .error (.fatal (remainingExtensionsMsg st'.requested))) ∧
      (st'.requested = [] →
        resolveExtensions c3rmatch [] "gl" "core" exts c3st = .ok st'))) :=
  ⟨by decide, by decide,
    c3_extension_lifecycle c3rmatch [] "gl" "core" c3ext c3st (by decide) (by decide)⟩

/-! Section: C7: malformed feature version strings -/

theorem ApiVersion.parse_shape (s : String) :
    (ApiVersion.parse s).valid_ = true ∨ ApiVersion.parse s = ⟨0, 0, false⟩ := by
  unfold ApiVersion.parse
  split
  · right; rfl
  · split
    · right; rfl
    · left; rfl
    · right; rfl
  · right; rfl

/-- The registry of the C7 counterexample: one feature block for API `gl`
whose version string is malformed. -/
def c7features : List Feature :=
  [⟨"gl", "abc", [⟨"require", none, [⟨"type", "Foo"⟩]⟩]⟩]

/-- C7 (counterexample): a version-feature block tagged for the target API
whose version string `"abc"` does not parse is *not* rejected: version
resolution succeeds — no fatal error — and the block is even applied (its
required type lands in the selection). -/
theorem c7_counterexample :
    (ApiVersion.parse "abc").valid_ = false ∧
    resolveFeatures [] "gl" "core" ⟨4, 0, true⟩ c7features [] =
      .ok [("type", ["Foo"])] := by
  constructor
  · rfl
  · rfl

/-- C7 (amended): a feature block with a malformed version string is not
fatal; the string parses to the invalid marker version `(0, 0)`, which
compares `≤` every target version, so such a block is sorted first and
applied (never skipped, never a failure caused by the version itself):
resolving a registry consisting of that block alone is exactly applying its
directive blocks. -/
theorem c7_invalid_version_not_fatal (s : String)
    (hs : (ApiVersion.parse s).valid_ = false)
    (command_map : EntityMap CommandInfo) (api_name profile : String)
    (target : ApiVersion) (ops : List Operation) (sets : EntitySets) :
    ApiVersion.parse s = ⟨0, 0, false⟩ ∧
    (∀ v : ApiVersion, (ApiVersion.parse s).le v = true) ∧
    resolveFeatures command_map api_name profile target [⟨api_name, s, ops⟩] sets =
      processOperations command_map api_name profile ops sets := by
  have hp : ApiVersion.parse s = ⟨0, 0, false⟩ := by
    rcases ApiVersion.parse_shape s with h | h
    · rw [hs] at h
      cases h
    · exact h
  have hle : ∀ v : ApiVersion, (ApiVersion.parse s).le v = true := by
    intro v
    rw [hp, ApiVersion.le_iff]
    show 0 < v.ver_maj_ ∨ (0 = v.ver_maj_ ∧ 0 ≤ v.ver_min_)
    omega
  refine ⟨hp, hle, ?_⟩
  have hsort : sortFeatures [(⟨api_name, s, ops⟩ : Feature)] api_name =
      [⟨api_name, s, ops⟩] := by
    unfold sortFeatures
    simp [List.filter, List.insertionSort]
  unfold resolveFeatures
  rw [hsort]
  unfold featureLoop
  have hgt : (ApiVersion.parse s).gt target = false := by
    unfold ApiVersion.gt
    rw [hle target]
    rfl
  rw [if_neg (by simp [hgt])]
  cases hpr : processOperations command_map api_name profile ops sets with
  | error e => rfl
  | ok sets' => rfl

/-- C7 (witness of the amended theorem): instantiated at the malformed
version string `"abc"` and a one-directive block. -/
theorem c7_invalid_version_not_fatal_witness :
    (ApiVersion.parse "abc").valid_ = false ∧
    (ApiVersion.parse "abc" = ⟨0, 0, false⟩ ∧
    (∀ v : ApiVersion, (ApiVersion.parse "abc").le v = true) ∧
    resolveFeatures [] "gl" "core" ⟨4, 0, true⟩
        [⟨"gl", "abc", [⟨"require", none, [⟨"type", "Foo"⟩]⟩]⟩] [] =
      processOperations [] "gl" "core" [⟨"require", none, [⟨"type", "Foo"⟩]⟩] []) :=
  ⟨by rfl,
    c7_invalid_version_not_fatal "abc" (by rfl) [] "gl" "core" ⟨4, 0, true⟩
      [⟨"require", none, [⟨"type", "Foo"⟩]⟩] []⟩

/-! Section: C8: failure mode of dangling references -/

/-- C8: a `require` directive naming a command with no definition in the
command map does *not* terminate through the documented fatal-error path:
the embedded `unordered_map::at` access raises the out-of-range failure
mode (an uncaught C++ exception), which is not a `FAIL` termination.  By
contrast, the emission loop reaching a selected command with no definition
is the documented fatal error. -/
theorem c8_require_missing_command_failure_mode :
    applyRef [] "gl" true ⟨"command", "glDoesNotExist"⟩ [] = .error .outOfRange ∧
    GalError.outOfRange.isFatal = false ∧
    emitCommands [] "gl" ["glDoesNotExist"] =
      .error (.fatal "Reference to undefined command glDoesNotExist") ∧
    (GalError.fatal "Reference to undefined command glDoesNotExist").isFatal = true := by
  refine ⟨?_, rfl, ?_, rfl⟩
  · rfl
  · rfl

/-! Section: C9: asymmetric undefined-reference behavior for groups -/

theorem groupEnumRefs_missing_fatal {enum_map : EntityMap EnumerantInfo}
    {api_name r : String} {refs : List String}
    (hr : r ∈ refs) (hmiss : mapLookup enum_map r = none) :
    ∃ msg, groupEnumRefs enum_map api_name refs = .error (.fatal msg) := by
  induction refs with
  | nil => cases hr
  | cons a rs ih =>
    unfold groupEnumRefs
    rcases List.mem_cons.mp hr with rfl | hmem
    · rw [hmiss]
      exact ⟨_, rfl⟩
    · cases hl : mapLookup enum_map a with
      | none => exact ⟨_, rfl⟩
      | some variants =>
        cases hget : ApiEntity.get variants api_name with
        | none =>
          simp only [hget]
          exact ⟨_, rfl⟩
        | some info =>
          obtain ⟨msg, hmsg⟩ := ih hmem
          simp only [hget, hmsg]
          exact ⟨msg, rfl⟩

/-- C9: a group declaration whose member reference names an undefined
enumerant is a fatal error at load time, whereas a selected group name with
no entry in the group map at emission time is silently skipped — emission
continues exactly as if the name had not been selected, with no warning and
no error. -/
theorem c9_group_reference_asymmetry (enum_map : EntityMap EnumerantInfo)
    (api_name gname : String) (refs : List String) (r : String)
    (group_map : EntityMap GroupInfo) (g : String) (gs : List String)
    (hr : r ∈ refs) (hmiss : mapLookup enum_map r = none)
    (hgmiss : mapLookup group_map g = none) :
    (∃ msg, populateGroupEntity enum_map api_name gname refs = .error (.fatal msg)) ∧
    emitGroups group_map api_name (g :: gs) = emitGroups group_map api_name gs := by
  constructor
  · unfold populateGroupEntity
    by_cases hg0 : gname = ""
    · rw [if_pos hg0]
      exact ⟨_, rfl⟩
    · rw [if_neg hg0]
      obtain ⟨msg, hmsg⟩ := groupEnumRefs_missing_fatal hr hmiss
      rw [hmsg]
      exact ⟨msg, rfl⟩
  · simp only [emitGroups, hgmiss]

/-- C9 (witness): the asymmetry theorem at a concrete configuration — a
group whose single member reference is undefined, and an emission list
whose head group name is undefined. -/
theorem c9_group_reference_asymmetry_witness :
    ("E0" : String) ∈ ["E0"] ∧
    mapLookup ([] : EntityMap EnumerantInfo) "E0" = none ∧
    mapLookup ([] : EntityMap GroupInfo) "G0" = none ∧
    ((∃ msg, populateGroupEntity [] "gl" "Grp" ["E0"] = .error (.fatal msg)) ∧
      emitGroups [] "gl" ["G0"] = emitGroups [] "gl" []) :=
  ⟨by decide, by decide, by decide,
    c9_group_reference_asymmetry [] "gl" "Grp" ["E0"] "E0" [] "G0" []
      (by decide) (by decide) (by decide)⟩

/-! Section: C5 and C6: type dependency closure -/

/-- The `requires` edge of the type entity stored under `name`, resolved
for the target API. -/
def reqOf (type_map : EntityMap TypeInfo) (api_name name : String) : Option String :=
  (ApiEntity.get (getVariants type_map name) api_name).map (fun i => i.requires)

/-- Well-formedness of a type map as produced by `loadEntities`: every
variant is stored under its own name. -/
def wfTypeMapB (type_map : EntityMap TypeInfo) : Bool :=
  type_map.all (fun kv => kv.2.all (fun v => v.name == kv.1))

/-- The `rank` decreasing along every `requires` edge of the type map: an
explicit witness that the requires-graph is acyclic. -/
def rankOkB (type_map : EntityMap TypeInfo) (api_name : String) (rank : String → Nat) : Bool :=
  type_map.all (fun kv =>
    match ApiEntity.get kv.2 api_name with
    | some info => info.requires == "" || decide (rank info.requires < rank kv.1)
    | none => true)

/-- Each emitted type's `requires` target has already been emitted (or is
in `seen`) at the point the type itself is emitted. -/
def requiresBeforeB (seen : List String) : List TypeInfo → Bool
  | [] => true
  | t :: ts =>
    (t.requires == "" || decide (t.requires ∈ seen)) && requiresBeforeB (seen ++ [t.name]) ts

theorem mapLookup_mem {T : Type} {m : EntityMap T} {k : String} {v : List T}
    (h : mapLookup m k = some v) : (k, v) ∈ m := by
  induction m with
  | nil => cases h
  | cons kv rest ih =>
    obtain ⟨k0, v0⟩ := kv
    unfold mapLookup at h
    by_cases h0 : k0 = k
    · rw [if_pos h0] at h
      cases h
      subst h0
      exact List.mem_cons_self _ _
    · rw [if_neg h0] at h
      exact List.mem_cons_of_mem _ (ih h)

theorem ApiEntity.getAux_mem {T : Type} [HasApi T] {api_name : String} {l : List T}
    {info : T} :
    ∀ {r : Option T}, l.foldl (getStep api_name) r = some info →
      info ∈ l ∨ r = some info := by
  induction l with
  | nil =>
    intro r h
    exact Or.inr h
  | cons e l ih =>
    intro r h
    rw [List.foldl_cons] at h
    rcases ih h with hm | hs
    · exact Or.inl (List.mem_cons_of_mem _ hm)
    · unfold getStep at hs
      split_ifs at hs with h1 h2
      · cases r with
        | none =>
          cases hs
          exact Or.inl (List.mem_cons_self _ _)
        | some y => exact Or.inr hs
      · cases hs
        exact Or.inl (List.mem_cons_self _ _)
      · exact Or.inr hs

theorem ApiEntity.get_mem {T : Type} [HasApi T] {api_name : String} {l : List T}
    {info : T} (h : ApiEntity.get l api_name = some info) : info ∈ l := by
  unfold ApiEntity.get at h
  rcases ApiEntity.getAux_mem h with hm | hs
  · exact hm
  · cases hs

theorem wfTypeMapB_name {type_map : EntityMap TypeInfo} {k : String} {vs : List TypeInfo}
    {v : TypeInfo} (hwf : wfTypeMapB type_map = true)
    (hl : mapLookup type_map k = some vs) (hv : v ∈ vs) : v.name = k := by
  have hmem : (k, vs) ∈ type_map := mapLookup_mem hl
  have h1 := (List.all_eq_true.mp hwf) _ hmem
  have h2 := (List.all_eq_true.mp h1) _ hv
  exact eq_of_beq h2

theorem rankOkB_lt {type_map : EntityMap TypeInfo} {api_name : String}
    {rank : String → Nat} {k : String} {vs : List TypeInfo} {info : TypeInfo}
    (hrank : rankOkB type_map api_name rank = true)
    (hl : mapLookup type_map k = some vs)
    (hg : ApiEntity.get vs api_name = some info)
    (hreq : info.requires ≠ "") : rank info.requires < rank k := by
  have hmem : (k, vs) ∈ type_map := mapLookup_mem hl
  have h1 := (List.all_eq_true.mp hrank) _ hmem
  rw [hg] at h1
  rcases Bool.or_eq_true_iff.mp h1 with h2 | h2
  · exact absurd (eq_of_beq h2) hreq
  · exact of_decide_eq_true h2

/-- In a successful `output_type` call the looked-up variant list exists in
the map and the resolved variant belongs to it. -/
theorem output_type_lookup {type_map : EntityMap TypeInfo} {api_name name : String}
    {info : TypeInfo}
    (hg : ApiEntity.get (getVariants type_map name) api_name = some info) :
    ∃ vs, mapLookup type_map name = some vs ∧ ApiEntity.get vs api_name = some info := by
  cases hl : mapLookup type_map name with
  | none =>
    unfold getVariants at hg
    rw [hl] at hg
    cases hg
  | some vs =>
    unfold getVariants at hg
    rw [hl] at hg
    exact ⟨vs, rfl, hg⟩

theorem requiresBeforeB_snoc (seen : List String) (l : List TypeInfo) (t : TypeInfo) :
    requiresBeforeB seen (l ++ [t]) =
      (requiresBeforeB seen l &&
        (t.requires == "" || decide (t.requires ∈ seen ++ l.map TypeInfo.name))) := by
  induction l generalizing seen with
  | nil =>
    simp [requiresBeforeB]
  | cons a l ih =>
    simp only [List.cons_append, requiresBeforeB]
    rw [show (l.append [t] : List TypeInfo) = l ++ [t] from rfl,
      ih (seen ++ [a.name]), List.append_assoc]
    simp [Bool.and_assoc, List.singleton_append]

theorem requiresBeforeB_closure {seen : List String} {l : List TypeInfo}
    (h : requiresBeforeB seen l = true) :
    ∀ t ∈ l, t.requires ≠ "" → t.requires ∈ seen ++ l.map TypeInfo.name := by
  induction l generalizing seen with
  | nil =>
    intro t ht
    cases ht
  | cons a l ih =>
    simp only [requiresBeforeB, Bool.and_eq_true] at h
    intro t ht hreq
    rcases List.mem_cons.mp ht with rfl | hmem
    · rcases Bool.or_eq_true_iff.mp h.1 with h1 | h1
      · exact absurd (eq_of_beq h1) hreq
      · exact List.mem_append_left _ (of_decide_eq_true h1)
    · have h2 := ih h.2 t hmem hreq
      simpa [List.append_assoc] using h2

/-- A successful `output_type` call extends the emitted sequence (never
rewriting what is already emitted), keeps the processed set equal to the
set of emitted names, marks the requested name processed, and preserves the
requires-before-use ordering of the emitted sequence. -/
theorem output_type_ok_invariant {type_map : EntityMap TypeInfo} {api_name : String}
    (hwf : wfTypeMapB type_map = true) (fuel : Nat) :
    ∀ {name : String} {st st' : EmitState},
    output_type type_map api_name fuel name st = .ok st' →
    st.processed = st.emitted.map TypeInfo.name →
    (∃ tail, st'.emitted = st.emitted ++ tail ∧
      st'.processed = st.processed ++ tail.map TypeInfo.name) ∧
    name ∈ st'.processed ∧
    (requiresBeforeB [] st.emitted = true → requiresBeforeB [] st'.emitted = true) := by
  induction fuel with
  | zero =>
    intro name st st' h hinv
    cases h
  | succ fuel ih =>
    intro name st st' h hinv
    unfold output_type at h
    cases hg : ApiEntity.get (getVariants type_map name) api_name with
    | none =>
      simp only [hg] at h
      cases h
    | some info =>
      simp only [hg] at h
      have hname : info.name = name := by
        obtain ⟨vs, hl, hv⟩ := output_type_lookup hg
        exact wfTypeMapB_name hwf hl (ApiEntity.get_mem hv)
      by_cases hproc : name ∈ st.processed
      · rw [if_pos hproc] at h
        cases h
        exact ⟨⟨[], by simp, by simp⟩, hproc, fun hrb => hrb⟩
      · rw [if_neg hproc] at h
        by_cases hreq : info.requires ≠ ""
        · rw [if_pos hreq] at h
          cases hrec : output_type type_map api_name fuel info.requires st with
          | error e =>
            rw [hrec] at h
            cases h
          | ok st1 =>
            rw [hrec] at h
            cases h
            obtain ⟨⟨tail1, hem1, hpr1⟩, hmem1, hrb1⟩ := ih hrec hinv
            have hinv1 : st1.processed = st1.emitted.map TypeInfo.name := by
              rw [hem1, hpr1, hinv, List.map_append]
            refine ⟨⟨tail1 ++ [info], ?_, ?_⟩, ?_, ?_⟩
            · show st1.emitted ++ [info] = st.emitted ++ (tail1 ++ [info])
              rw [hem1, List.append_assoc]
            · show st1.processed ++ [name] = st.processed ++ (tail1 ++ [info]).map TypeInfo.name
              rw [hpr1, List.map_append, List.append_assoc, List.map_singleton, hname]
            · show name ∈ st1.processed ++ [name]
              exact List.mem_append_right _ (List.mem_singleton.mpr rfl)
            · intro hrb
              show requiresBeforeB [] (st1.emitted ++ [info]) = true
              rw [requiresBeforeB_snoc, Bool.and_eq_true]
              refine ⟨hrb1 hrb, ?_⟩
              have hm : info.requires ∈ st1.emitted.map TypeInfo.name := by
                rw [← hinv1]
                exact hmem1
              simp [hm]
        · rw [if_neg hreq] at h
          cases h
          have hreq' : info.requires = "" := not_not.mp hreq
          refine ⟨⟨[info], rfl, ?_⟩, ?_, ?_⟩
          · show st.processed ++ [name] = st.processed ++ [info].map TypeInfo.name
            rw [List.map_singleton, hname]
          · show name ∈ st.processed ++ [name]
            exact List.mem_append_right _ (List.mem_singleton.mpr rfl)
          · intro hrb
            show requiresBeforeB [] (st.emitted ++ [info]) = true
            rw [requiresBeforeB_snoc, Bool.and_eq_true]
            refine ⟨hrb, ?_⟩
            simp [hreq']

/-- Under an acyclicity witness (a rank decreasing along `requires` edges),
a successful `output_type` call emits only fresh names — none already
processed, none twice — all of rank at most the rank of the requested
name. -/
theorem output_type_ok_rank {type_map : EntityMap TypeInfo} {api_name : String}
    {rank : String → Nat}
    (hwf : wfTypeMapB type_map = true) (hrank : rankOkB type_map api_name rank = true)
    (fuel : Nat) :
    ∀ {name : String} {st st' : EmitState},
    output_type type_map api_name fuel name st = .ok st' →
    ∃ tail, st'.emitted = st.emitted ++ tail ∧
      st'.processed = st.processed ++ tail.map TypeInfo.name ∧
      (∀ m ∈ tail.map TypeInfo.name, rank m ≤ rank name) ∧
      (∀ m ∈ tail.map TypeInfo.name, m ∉ st.processed) ∧
      (tail.map TypeInfo.name).Nodup := by
  induction fuel with
  | zero =>
    intro name st st' h
    cases h
  | succ fuel ih =>
    intro name st st' h
    unfold output_type at h
    cases hg : ApiEntity.get (getVariants type_map name) api_name with
    | none =>
      simp only [hg] at h
      cases h
    | some info =>
      simp only [hg] at h
      obtain ⟨vs, hl, hv⟩ := output_type_lookup hg
      have hname : info.name = name := wfTypeMapB_name hwf hl (ApiEntity.get_mem hv)
      by_cases hproc : name ∈ st.processed
      · rw [if_pos hproc] at h
        cases h
        exact ⟨[], by simp, by simp, by simp, by simp, List.nodup_nil⟩
      · rw [if_neg hproc] at h
        by_cases hreq : info.requires ≠ ""
        · rw [if_pos hreq] at h
          cases hrec : output_type type_map api_name fuel info.requires st with
          | error e =>
            rw [hrec] at h
            cases h
          | ok st1 =>
            rw [hrec] at h
            cases h
            obtain ⟨tail1, hem1, hpr1, hrk1, hfr1, hnd1⟩ := ih hrec
            have hlt : rank info.requires < rank name := rankOkB_lt hrank hl hv hreq
            refine ⟨tail1 ++ [info], ?_, ?_, ?_, ?_, ?_⟩
            · show st1.emitted ++ [info] = st.emitted ++ (tail1 ++ [info])
              rw [hem1, List.append_assoc]
            · show st1.processed ++ [name] =
                st.processed ++ (tail1 ++ [info]).map TypeInfo.name
              rw [hpr1, List.map_append, List.append_assoc, List.map_singleton, hname]
            · intro m hm
              rw [List.map_append, List.map_singleton, hname] at hm
              rcases List.mem_append.mp hm with hm1 | hm1
              · exact Nat.le_of_lt (Nat.lt_of_le_of_lt (hrk1 m hm1) hlt)
              · rw [List.mem_singleton.mp hm1]
            · intro m hm
              rw [List.map_append, List.map_singleton, hname] at hm
              rcases List.mem_append.mp hm with hm1 | hm1
              · exact hfr1 m hm1
              · rw [List.mem_singleton.mp hm1]
                exact hproc
            · rw [List.map_append, List.map_singleton, hname]
              rw [List.nodup_append]
              refine ⟨hnd1, List.nodup_singleton _, ?_⟩
              intro m hm1 hm2
              rw [List.mem_singleton.mp hm2] at hm1
              exact absurd (hrk1 _ hm1)
                (Nat.not_le_of_lt hlt)
        · rw [if_neg hreq] at h
          cases h
          refine ⟨[info], rfl, ?_, ?_, ?_, ?_⟩
          · show st.processed ++ [name] = st.processed ++ [info].map TypeInfo.name
            rw [List.map_singleton, hname]
          · intro m hm
            rw [List.map_singleton, hname] at hm
            rw [List.mem_singleton.mp hm]
          · intro m hm
            rw [List.map_singleton, hname] at hm
            rw [List.mem_singleton.mp hm]
            exact hproc
          · rw [List.map_singleton]
            exact List.nodup_singleton _

theorem outputTypeList_ok_invariant {type_map : EntityMap TypeInfo} {api_name : String}
    (hwf : wfTypeMapB type_map = true) (fuel : Nat) :
    ∀ {names : List String} {st st' : EmitState},
    outputTypeList type_map api_name fuel names st = .ok st' →
    st.processed = st.emitted.map TypeInfo.name →
    (∃ tail, st'.emitted = st.emitted ++ tail ∧
      st'.processed = st.processed ++ tail.map TypeInfo.name) ∧
    (∀ n ∈ names, n ∈ st'.processed) ∧
    (requiresBeforeB [] st.emitted = true → requiresBeforeB [] st'.emitted = true) := by
  intro names
  induction names with
  | nil =>
    intro st st' h hinv
    cases h
    exact ⟨⟨[], by simp, by simp⟩, fun n hn => absurd hn (List.not_mem_nil n), fun hrb => hrb⟩
  | cons n ns ihl =>
    intro st st' h hinv
    unfold outputTypeList at h
    cases hr : output_type type_map api_name fuel n st with
    | error e =>
      rw [hr] at h
      cases h
    | ok st1 =>
      rw [hr] at h
      obtain ⟨⟨tail1, hem1, hpr1⟩, hmem1, hrb1⟩ := output_type_ok_invariant hwf fuel hr hinv
      have hinv1 : st1.processed = st1.emitted.map TypeInfo.name := by
        rw [hem1, hpr1, hinv, List.map_append]
      obtain ⟨⟨tail2, hem2, hpr2⟩, hmem2, hrb2⟩ := ihl h hinv1
      refine ⟨⟨tail1 ++ tail2, ?_, ?_⟩, ?_, fun hrb => hrb2 (hrb1 hrb)⟩
      · rw [hem2, hem1, List.append_assoc]
      · rw [hpr2, hpr1, List.map_append, List.append_assoc]
      · intro m hm
        rcases List.mem_cons.mp hm with rfl | hmm
        · rw [hpr2]
          exact List.mem_append_left _ hmem1
        · exact hmem2 m hmm

theorem outputTypeList_ok_nodup {type_map : EntityMap TypeInfo} {api_name : String}
    {rank : String → Nat}
    (hwf : wfTypeMapB type_map = true) (hrank : rankOkB type_map api_name rank = true)
    (fuel : Nat) :
    ∀ {names : List String} {st st' : EmitState},
    outputTypeList type_map api_name fuel names st = .ok st' →
    ∃ tail, st'.emitted = st.emitted ++ tail ∧
      st'.processed = st.processed ++ tail.map TypeInfo.name ∧
      (∀ m ∈ tail.map TypeInfo.name, m ∉ st.processed) ∧
      (tail.map TypeInfo.name).Nodup := by
  intro names
  induction names with
  | nil =>
    intro st st' h
    cases h
    exact ⟨[], by simp, by simp, by simp, List.nodup_nil⟩
  | cons n ns ihl =>
    intro st st' h
    unfold outputTypeList at h
    cases hr : output_type type_map api_name fuel n st with
    | error e =>
      rw [hr] at h
      cases h
    | ok st1 =>
      rw [hr] at h
      obtain ⟨tail1, hem1, hpr1, _, hfr1, hnd1⟩ := output_type_ok_rank hwf hrank fuel hr
      obtain ⟨tail2, hem2, hpr2, hfr2, hnd2⟩ := ihl h
      refine ⟨tail1 ++ tail2, ?_, ?_, ?_, ?_⟩
      · rw [hem2, hem1, List.append_assoc]
      · rw [hpr2, hpr1, List.map_append, List.append_assoc]
      · intro m hm
        rw [List.map_append] at hm
        rcases List.mem_append.mp hm with hm1 | hm1
        · exact hfr1 m hm1
        · intro hmem
          exact hfr2 m hm1 (by rw [hpr1]; exact List.mem_append_left _ hmem)
      · rw [List.map_append, List.nodup_append]
        refine ⟨hnd1, hnd2, ?_⟩
        intro m hm1 hm2
        exact hfr2 m hm2 (by rw [hpr1]; exact List.mem_append_right _ hm1)

theorem emitSelectedTypes_ok_invariant {type_map : EntityMap TypeInfo} {api_name : String}
    (hwf : wfTypeMapB type_map = true) (fuel : Nat) :
    ∀ {names : List String} {st st' : EmitState},
    emitSelectedTypes type_map api_name fuel names st = .ok st' →
    st.processed = st.emitted.map TypeInfo.name →
    (∃ tail, st'.emitted = st.emitted ++ tail ∧
      st'.processed = st.processed ++ tail.map TypeInfo.name) ∧
    (requiresBeforeB [] st.emitted = true → requiresBeforeB [] st'.emitted = true) := by
  intro names
  induction names with
  | nil =>
    intro st st' h hinv
    cases h
    exact ⟨⟨[], by simp, by simp⟩, fun hrb => hrb⟩
  | cons n ns ihl =>
    intro st st' h hinv
    unfold emitSelectedTypes at h
    cases hlk : mapLookup type_map n with
    | none =>
      simp only [hlk] at h
      cases h
    | some vs =>
      simp only [hlk] at h
      cases hr : output_type type_map api_name fuel n st with
      | error e =>
        rw [hr] at h
        cases h
      | ok st1 =>
        rw [hr] at h
        obtain ⟨⟨tail1, hem1, hpr1⟩, _, hrb1⟩ := output_type_ok_invariant hwf fuel hr hinv
        have hinv1 : st1.processed = st1.emitted.map TypeInfo.name := by
          rw [hem1, hpr1, hinv, List.map_append]
        obtain ⟨⟨tail2, hem2, hpr2⟩, hrb2⟩ := ihl h hinv1
        refine ⟨⟨tail1 ++ tail2, ?_, ?_⟩, fun hrb => hrb2 (hrb1 hrb)⟩
        · rw [hem2, hem1, List.append_assoc]
        · rw [hpr2, hpr1, List.map_append, List.append_assoc]

theorem emitSelectedTypes_ok_nodup {type_map : EntityMap TypeInfo} {api_name : String}
    {rank : String → Nat}
    (hwf : wfTypeMapB type_map = true) (hrank : rankOkB type_map api_name rank = true)
    (fuel : Nat) :
    ∀ {names : List String} {st st' : EmitState},
    emitSelectedTypes type_map api_name fuel names st = .ok st' →
    ∃ tail, st'.emitted = st.emitted ++ tail ∧
      st'.processed = st.processed ++ tail.map TypeInfo.name ∧
      (∀ m ∈ tail.map TypeInfo.name, m ∉ st.processed) ∧
      (tail.map TypeInfo.name).Nodup := by
  intro names
  induction names with
  | nil =>
    intro st st' h
    cases h
    exact ⟨[], by simp, by simp, by simp, List.nodup_nil⟩
  | cons n ns ihl =>
    intro st st' h
    unfold emitSelectedTypes at h
    cases hlk : mapLookup type_map n with
    | none =>
      simp only [hlk] at h
      cases h
    | some vs =>
      simp only [hlk] at h
      cases hr : output_type type_map api_name fuel n st with
      | error e =>
        rw [hr] at h
        cases h
      | ok st1 =>
        rw [hr] at h
        obtain ⟨tail1, hem1, hpr1, _, hfr1, hnd1⟩ := output_type_ok_rank hwf hrank fuel hr
        obtain ⟨tail2, hem2, hpr2, hfr2, hnd2⟩ := ihl h
        refine ⟨tail1 ++ tail2, ?_, ?_, ?_, ?_⟩
        · rw [hem2, hem1, List.append_assoc]
        · rw [hpr2, hpr1, List.map_append, List.append_assoc]
        · intro m hm
          rw [List.map_append] at hm
          rcases List.mem_append.mp hm with hm1 | hm1
          · exact hfr1 m hm1
          · intro hmem
            exact hfr2 m hm1 (by rw [hpr1]; exact List.mem_append_left _ hmem)
        · rw [List.map_append, List.nodup_append]
          refine ⟨hnd1, hnd2, ?_⟩
          intro m hm1 hm2
          exact hfr2 m hm2 (by rw [hpr1]; exact List.mem_append_right _ hm1)

/-- C5: for every type map whose requires-graph is acyclic (witnessed by a
rank decreasing along every `requires` edge) and every selected type set:
when the type emission of `generate` (bootstrap visits followed by the
selected-type loop) succeeds, each type appears at most once in the emitted
sequence (so diamond dependencies cause no duplicate emission), and every
emitted type that declares a non-empty `requires` edge appears after the
type it requires (each entry's `requires` target is among the names emitted
before it, so for a chain A requires B requires C the sequence places C
before B and B before A). -/
theorem c5_type_closure_order (type_map : EntityMap TypeInfo) (api_name : String)
    (fuel : Nat) (selected : List String) (st' : EmitState) (rank : String → Nat)
    (hwf : wfTypeMapB type_map = true)
    (hrank : rankOkB type_map api_name rank = true)
    (hrun : emitTypes type_map api_name fuel selected ⟨[], []⟩ = .ok st') :
    (st'.emitted.map TypeInfo.name).Nodup ∧
    requiresBeforeB [] st'.emitted = true := by
  unfold emitTypes at hrun
  cases hb : outputTypeList type_map api_name fuel bootstrapTypes ⟨[], []⟩ with
  | error e =>
    rw [hb] at hrun
    cases hrun
  | ok st4 =>
    rw [hb] at hrun
    obtain ⟨tail1, hem1, hpr1, hfr1, hnd1⟩ := outputTypeList_ok_nodup hwf hrank fuel hb
    obtain ⟨tail2, hem2, hpr2, hfr2, hnd2⟩ := emitSelectedTypes_ok_nodup hwf hrank fuel hrun
    constructor
    · rw [hem2, hem1]
      simp only [List.nil_append, List.map_append]
      rw [List.nodup_append]
      refine ⟨hnd1, hnd2, ?_⟩
      intro m hm1 hm2
      exact hfr2 m hm2 (by rw [hpr1]; simpa using hm1)
    · obtain ⟨_, _, hrb1⟩ := outputTypeList_ok_invariant hwf fuel hb rfl
      have hinv4 : st4.processed = st4.emitted.map TypeInfo.name := by
        rw [hem1, hpr1]
        simp
      obtain ⟨_, hrb2⟩ := emitSelectedTypes_ok_invariant hwf fuel hrun hinv4
      exact hrb2 (hrb1 rfl)

/-- C6: whenever the type emission of `generate` succeeds — regardless of
the selection — the four bootstrap types GLenum, GLuint, GLsizei and GLchar
were visited unconditionally before the loop over selected type names, so
each of them appears in the emitted type sequence (even for an empty
selection), and every emitted type's non-empty `requires` dependency also
appears in the sequence. -/
theorem c6_bootstrap_types (type_map : EntityMap TypeInfo) (api_name : String)
    (fuel : Nat) (selected : List String) (st' : EmitState)
    (hwf : wfTypeMapB type_map = true)
    (hrun : emitTypes type_map api_name fuel selected ⟨[], []⟩ = .ok st') :
    "GLenum" ∈ st'.emitted.map TypeInfo.name ∧
    "GLuint" ∈ st'.emitted.map TypeInfo.name ∧
    "GLsizei" ∈ st'.emitted.map TypeInfo.name ∧
    "GLchar" ∈ st'.emitted.map TypeInfo.name ∧
    (∀ info ∈ st'.emitted, info.requires ≠ "" →
      info.requires ∈ st'.emitted.map TypeInfo.name) := by
  unfold emitTypes at hrun
  cases hb : outputTypeList type_map api_name fuel bootstrapTypes ⟨[], []⟩ with
  | error e =>
    rw [hb] at hrun
    cases hrun
  | ok st4 =>
    rw [hb] at hrun
    obtain ⟨⟨tail1, hem1, hpr1⟩, hmem1, hrb1⟩ := outputTypeList_ok_invariant hwf fuel hb rfl
    have hinv4 : st4.processed = st4.emitted.map TypeInfo.name := by
      rw [hem1, hpr1]
      simp
    obtain ⟨⟨tail2, hem2, hpr2⟩, hrb2⟩ := emitSelectedTypes_ok_invariant hwf fuel hrun hinv4
    have hinv' : st'.processed = st'.emitted.map TypeInfo.name := by
      rw [hem2, hpr2, hinv4, List.map_append]
    have hmem : ∀ n ∈ bootstrapTypes, n ∈ st'.emitted.map TypeInfo.name := by
      intro n hn
      rw [← hinv', hpr2]
      exact List.mem_append_left _ (hmem1 n hn)
    refine ⟨hmem _ (by simp [bootstrapTypes]), hmem _ (by simp [bootstrapTypes]),
      hmem _ (by simp [bootstrapTypes]), hmem _ (by simp [bootstrapTypes]), ?_⟩
    intro info hi hreq
    have hrb := hrb2 (hrb1 rfl)
    have hcl := requiresBeforeB_closure hrb info hi hreq
    simpa using hcl

/-- The type map of the C5/C6 witnesses: the four bootstrap types plus a
requires-chain A requires B requires C. -/
def c5tm : EntityMap TypeInfo :=
  [("GLenum", [⟨"GLenum", "typedef unsigned int GLenum;", "", ""⟩]),
   ("GLuint", [⟨"GLuint", "typedef unsigned int GLuint;", "", ""⟩]),
   ("GLsizei", [⟨"GLsizei", "typedef int GLsizei;", "", ""⟩]),
   ("GLchar", [⟨"GLchar", "typedef char GLchar;", "", ""⟩]),
   ("A", [⟨"A", "typedef B A;", "B", ""⟩]),
   ("B", [⟨"B", "typedef C B;", "C", ""⟩]),
   ("C", [⟨"C", "typedef int C;", "", ""⟩])]

/-- An explicit rank witnessing that the requires-graph of `c5tm` is
acyclic. -/
def c5rank : String → Nat := fun n => if n = "A" then 2 else if n = "B" then 1 else 0

/-- The emission state produced for `c5tm` with selection `["A"]`. -/
def c5st : EmitState :=
  ⟨["GLenum", "GLuint", "GLsizei", "GLchar", "C", "B", "A"],
   [⟨"GLenum", "typedef unsigned int GLenum;", "", ""⟩,
    ⟨"GLuint", "typedef unsigned int GLuint;", "", ""⟩,
    ⟨"GLsizei", "typedef int GLsizei;", "", ""⟩,
    ⟨"GLchar", "typedef char GLchar;", "", ""⟩,
    ⟨"C", "typedef int C;", "", ""⟩,
    ⟨"B", "typedef C B;", "C", ""⟩,
    ⟨"A", "typedef B A;", "B", ""⟩]⟩

/-- C5 (witness): the closure-order theorem instantiated at the chain
A requires B requires C, selected as `["A"]`: C is emitted before B before
A and nothing is emitted twice. -/
theorem c5_type_closure_order_witness :
    wfTypeMapB c5tm = true ∧ rankOkB c5tm "gl" c5rank = true ∧
    emitTypes c5tm "gl" 10 ["A"] ⟨[], []⟩ = .ok c5st ∧
    ((c5st.emitted.map TypeInfo.name).Nodup ∧
      requiresBeforeB [] c5st.emitted = true) :=
  ⟨by decide, by decide, by decide,
    c5_type_closure_order c5tm "gl" 10 ["A"] c5st c5rank (by decide) (by decide) (by decide)⟩

/-- The emission state produced for `c5tm` with an empty selection. -/
def c6st : EmitState :=
  ⟨["GLenum", "GLuint", "GLsizei", "GLchar"],
   [⟨"GLenum", "typedef unsigned int GLenum;", "", ""⟩,
    ⟨"GLuint", "typedef unsigned int GLuint;", "", ""⟩,
    ⟨"GLsizei", "typedef int GLsizei;", "", ""⟩,
    ⟨"GLchar", "typedef char GLchar;", "", ""⟩]⟩

/-- C6 (witness): the bootstrap theorem instantiated with an *empty*
selection: all four bootstrap types are nevertheless emitted. -/
theorem c6_bootstrap_types_witness :
    wfTypeMapB c5tm = true ∧
    emitTypes c5tm "gl" 10 [] ⟨[], []⟩ = .ok c6st ∧
    ("GLenum" ∈ c6st.emitted.map TypeInfo.name ∧
     "GLuint" ∈ c6st.emitted.map TypeInfo.name ∧
     "GLsizei" ∈ c6st.emitted.map TypeInfo.name ∧
     "GLchar" ∈ c6st.emitted.map TypeInfo.name ∧
     (∀ info ∈ c6st.emitted, info.requires ≠ "" →
       info.requires ∈ c6st.emitted.map TypeInfo.name)) :=
  ⟨by decide, by decide,
    c6_bootstrap_types c5tm "gl" 10 [] c6st (by decide) (by decide)⟩

/-- Two distinct default-tagged variants of one type entity. -/
def c4t1 : TypeInfo := ⟨"GLfoo", "typedef int GLfoo;", "", ""⟩

/-- See `c4t1`. -/
def c4t2 : TypeInfo := ⟨"GLfoo", "typedef long GLfoo;", "", ""⟩

/-- C4 (counterexample): with two default-tagged variants — both satisfying
the winning (default) case — `ApiEntity::get` returns the *first* one
encountered, not the last, refuting the claimed "last one encountered wins"
tie-break. -/
theorem c4_counterexample :
    ApiEntity.get [c4t1, c4t2] "gl" = some c4t1 ∧
      ApiEntity.get [c4t1, c4t2] "gl" ≠ some c4t2 := by
  constructor
  · rfl
  · decide

end Galogen
